import Mathlib

/-!
Verification of the Helix agent core against its specification.

The Python sources in `src/helix` are shallowly embedded below: strings
become lists of characters, dictionaries become association lists, and the
stateful graph nodes become pure functions from explicit state to explicit
updates.  Theorems about the embedded definitions settle the testable
properties of the specification.
-/

namespace Helix

/-- Strings are modelled as lists of characters. -/
abbrev Str := List Char

/-- Whitespace characters, as removed by Python `str.strip()` and used as
separators by `str.split()` (ASCII subset). -/
def isWS (c : Char) : Bool :=
  c = ' ' || c = '\t' || c = '\n' || c = '\r' || c = '\x0b' || c = '\x0c'

/-- Python `s.strip()`: remove leading and trailing whitespace. -/
def strip (s : Str) : Str :=
  ((s.dropWhile isWS).reverse.dropWhile isWS).reverse

/-- Python `s.endswith(":*")`. -/
def ends_with_colon_star (s : Str) : Bool :=
  match s.reverse with
  | '*' :: ':' :: _ => true
  | _ => false

/-- Python `s[:-2]` on a string of length at least 2. -/
def drop_last2 (s : Str) : Str := (s.reverse.drop 2).reverse

/-- Embedding of `settings._match_command_pattern`: normalize whitespace on
both sides; a pattern ending in `:*` matches the prefix before `:*` exactly
or that prefix followed by a space and anything; otherwise exact match. -/
def match_command_pattern (command patt : Str) : Bool :=
  let c := strip command
  let p := strip patt
  if ends_with_colon_star p then
    let pre := drop_last2 p
    (c == pre) || (pre ++ [' ']).isPrefixOf c
  else
    c == p

/-- Characters allowed in a rule's tool name by the regex
`^([a-z_]+)(?:\((.+)\))?$` in `settings._parse_rule`. -/
def is_rule_name_char (c : Char) : Bool :=
  ('a' ≤ c && c ≤ 'z') || c = '_'

/-- Embedding of `settings._parse_rule`: an anchored match of
`^([a-z_]+)(?:\((.+)\))?$`.  The name group is the maximal run of
`[a-z_]` characters (the following character, if any, is not a name
character, so greediness is unambiguous); the pattern group, when present,
is everything between the `(` that follows the name and the final `)` of
the rule, must be nonempty, and may not contain a newline (`.` does not
match `\n`).  When the regex does not match, the whole rule is returned as
the tool name with no pattern. -/
def parse_rule (rule : Str) : Str × Option Str :=
  let name := rule.takeWhile is_rule_name_char
  match rule.dropWhile is_rule_name_char with
  | [] => (rule, none)
  | '(' :: body =>
    if name = [] then (rule, none)
    else
      match body.reverse with
      | ')' :: innerRev =>
        let inner := innerRev.reverse
        if inner = [] || inner.contains '\n' then (rule, none) else (name, some inner)
      | _ => (rule, none)
  | _ => (rule, none)

/-- Tool arguments: a string-keyed mapping of string values. -/
abbrev ToolArgs := List (Str × Str)

/-- Python `tool_args.get(key, "")`. -/
def getArg (args : ToolArgs) (key : Str) : Str :=
  (args.lookup key).getD []

/-- Embedding of `settings.match_rule`: the rule's tool name must equal the
invoked tool name; a rule without a pattern then matches; a rule with a
pattern matches only the `run_shell_command` tool, via the command-pattern
matcher applied to the `command` argument. -/
def match_rule (rule : Str) (tool_name : Str) (tool_args : ToolArgs) : Bool :=
  let parsed := parse_rule rule
  if parsed.1 ≠ tool_name then false
  else
    match parsed.2 with
    | none => true
    | some patt =>
      if tool_name = "run_shell_command".toList then
        match_command_pattern (getArg tool_args ("command".toList)) patt
      else false

/-- Embedding of `settings.Permissions`: ordered allow and deny rule lists. -/
structure Permissions where
  allow : List Str
  deny : List Str
deriving DecidableEq

/-- Embedding of `settings.Settings`. -/
structure Settings where
  permissions : Permissions
  model : Str
  context_window_size : Int
deriving DecidableEq

/-- Default settings (`Settings()` in Python). -/
def default_settings : Settings :=
  ⟨⟨[], []⟩, "qwen3-coder".toList, 128000⟩

/-- Embedding of `settings.check_permission`: the first matching deny rule
yields `some false` (denied); otherwise the first matching allow rule
yields `some true` (allowed); otherwise `none` (requires approval). -/
def check_permission (s : Settings) (tool_name : Str) (tool_args : ToolArgs) :
    Option Bool :=
  match s.permissions.deny.find? (fun r => match_rule r tool_name tool_args) with
  | some _ => some false
  | none =>
    match s.permissions.allow.find? (fun r => match_rule r tool_name tool_args) with
    | some _ => some true
    | none => none

example :
    check_permission ⟨⟨["read_file".toList], []⟩, [], 0⟩ "read_file".toList [] =
      some true := by decide

example :
    check_permission
      ⟨⟨["run_shell_command(uv:*)".toList], ["run_shell_command(uv run pytest:*)".toList]⟩, [], 0⟩
      "run_shell_command".toList [("command".toList, "uv run pytest tests/".toList)] =
      some false := by decide

example :
    check_permission
      ⟨⟨["run_shell_command(uv:*)".toList], ["run_shell_command(uv run pytest:*)".toList]⟩, [], 0⟩
      "run_shell_command".toList [("command".toList, "uv sync".toList)] =
      some true := by decide

example : match_command_pattern "  uv run pytest  ".toList "uv run pytest".toList = true := by
  decide

theorem dropWhile_ws_append_colon_star (p : Str) :
    (p ++ [':', '*']).dropWhile isWS = p.dropWhile isWS ++ [':', '*'] := by
  induction p with
  | nil => decide
  | cons a l ih =>
    by_cases h : isWS a
    · simpa [List.dropWhile_cons, h] using ih
    · simp [List.dropWhile_cons, h]

theorem strip_append_colon_star (p : Str) :
    strip (p ++ [':', '*']) = p.dropWhile isWS ++ [':', '*'] := by
  have h1 : isWS '*' = false := by decide
  unfold strip
  rw [dropWhile_ws_append_colon_star, List.reverse_append]
  simp [List.dropWhile_cons, h1]

theorem ends_with_colon_star_append (x : Str) :
    ends_with_colon_star (x ++ [':', '*']) = true := by
  unfold ends_with_colon_star
  rw [List.reverse_append]
  rfl

theorem drop_last2_append (x : Str) : drop_last2 (x ++ [':', '*']) = x := by
  unfold drop_last2
  rw [List.reverse_append]
  simp

/-- C1: for every rule set and tool invocation, a matching deny rule forces
the decision `some false` (Deny) even when an allow rule also matches; with
no matching deny rule, a matching allow rule yields `some true` (Allow);
with no match in either list the decision is `none` (Undecided). -/
theorem check_permission_decision (s : Settings) (tool_name : Str)
    (tool_args : ToolArgs) :
    ((∃ r ∈ s.permissions.deny, match_rule r tool_name tool_args = true) →
        check_permission s tool_name tool_args = some false) ∧
    ((∀ r ∈ s.permissions.deny, match_rule r tool_name tool_args = false) →
      (∃ r ∈ s.permissions.allow, match_rule r tool_name tool_args = true) →
        check_permission s tool_name tool_args = some true) ∧
    ((∀ r ∈ s.permissions.deny, match_rule r tool_name tool_args = false) →
      (∀ r ∈ s.permissions.allow, match_rule r tool_name tool_args = false) →
        check_permission s tool_name tool_args = none) := by
  unfold check_permission
  refine ⟨?_, ?_, ?_⟩
  · rintro ⟨r, hr, hm⟩
    have hs : (s.permissions.deny.find?
        (fun r => match_rule r tool_name tool_args)).isSome := by
      rw [List.find?_isSome]
      exact ⟨r, hr, hm⟩
    rcases Option.isSome_iff_exists.mp hs with ⟨v, hv⟩
    rw [hv]
  · rintro hden ⟨r, hr, hm⟩
    have hd : s.permissions.deny.find?
        (fun r => match_rule r tool_name tool_args) = none := by
      rw [List.find?_eq_none]
      intro x hx
      simp [hden x hx]
    have hs : (s.permissions.allow.find?
        (fun r => match_rule r tool_name tool_args)).isSome := by
      rw [List.find?_isSome]
      exact ⟨r, hr, hm⟩
    rcases Option.isSome_iff_exists.mp hs with ⟨v, hv⟩
    rw [hd, hv]
  · intro hden hall
    have hd : s.permissions.deny.find?
        (fun r => match_rule r tool_name tool_args) = none := by
      rw [List.find?_eq_none]
      intro x hx
      simp [hden x hx]
    have ha : s.permissions.allow.find?
        (fun r => match_rule r tool_name tool_args) = none := by
      rw [List.find?_eq_none]
      intro x hx
      simp [hall x hx]
    rw [hd, ha]

/-- C1 witness: with allow rule `run_shell_command(uv:*)` and deny rule
`run_shell_command(uv run pytest:*)`, the call `uv run pytest tests/`
matches both lists and is denied. -/
theorem check_permission_decision_witness :
    check_permission
      ⟨⟨["run_shell_command(uv:*)".toList],
        ["run_shell_command(uv run pytest:*)".toList]⟩, [], 0⟩
      "run_shell_command".toList
      [("command".toList, "uv run pytest tests/".toList)] = some false :=
  (check_permission_decision _ _ _).1
    ⟨"run_shell_command(uv run pytest:*)".toList, by decide, by decide⟩

/-- C2 counterexample: the claimed biconditional fails at command `"a"` and
wildcard pattern built from the prefix `"a "` (trailing space).  The code
strips the whole pattern `"a :*"` before removing `:*`, so the extracted
prefix keeps its trailing space and the command `"a"` does not match, while
the trimmed command equals the trimmed prefix. -/
theorem match_command_pattern_trailing_ws_cex :
    ¬ (match_command_pattern "a".toList ("a ".toList ++ [':', '*']) = true ↔
      strip "a".toList = strip "a ".toList ∨
        (strip "a ".toList ++ [' ']).isPrefixOf (strip "a".toList) = true) := by
  decide

/-- C2 (amended): for a wildcard prefix `p` whose left-trimmed form equals
its fully trimmed form (no trailing whitespace), matching a command `c`
against `p ++ ":*"` succeeds iff the trimmed command equals the trimmed
prefix or starts with it followed by a space; and a pattern `q` whose
trimmed form does not end in `:*` matches exactly when the trimmed command
equals the trimmed pattern. -/
theorem match_command_pattern_spec (c p q : Str)
    (h : p.dropWhile isWS = strip p)
    (hq : ends_with_colon_star (strip q) = false) :
    (match_command_pattern c (p ++ [':', '*']) = true ↔
      strip c = strip p ∨ (strip p ++ [' ']).isPrefixOf (strip c) = true) ∧
    (match_command_pattern c q = true ↔ strip c = strip q) := by
  constructor
  · simp [match_command_pattern, strip_append_colon_star, h,
      ends_with_colon_star_append, drop_last2_append]
  · simp [match_command_pattern, hq]

/-- C2 witness: instantiation at command `"uv run pytest"`, wildcard prefix
`"uv run"` and exact pattern `"ls -la"`. -/
theorem match_command_pattern_spec_witness :
    ("uv run".toList.dropWhile isWS = strip "uv run".toList) ∧
    (ends_with_colon_star (strip "ls -la".toList) = false) ∧
    (match_command_pattern "uv run pytest".toList
        ("uv run".toList ++ [':', '*']) = true ↔
      strip "uv run pytest".toList = strip "uv run".toList ∨
        (strip "uv run".toList ++ [' ']).isPrefixOf
          (strip "uv run pytest".toList) = true) ∧
    (match_command_pattern "uv run pytest".toList "ls -la".toList = true ↔
      strip "uv run pytest".toList = strip "ls -la".toList) :=
  ⟨by decide, by decide,
    (match_command_pattern_spec "uv run pytest".toList "uv run".toList
      "ls -la".toList (by decide) (by decide)).1,
    (match_command_pattern_spec "uv run pytest".toList "uv run".toList
      "ls -la".toList (by decide) (by decide)).2⟩

/-- Embedding of a tool call emitted by the model:
`{id, name, arguments}`. -/
structure ToolCall where
  id : Str
  name : Str
  args : ToolArgs
deriving DecidableEq

/-- Conversational message variants (the langchain message classes used by
the agent graph): `SystemMessage`, `HumanMessage`, `AIMessage` with its
tool calls, and `ToolMessage` keyed to a tool call id. -/
inductive Msg
  | system (content : Str)
  | human (content : Str)
  | ai (content : Str) (tool_calls : List ToolCall)
  | tool (content : Str) (tool_call_id : Str) (name : Str)
deriving DecidableEq

/-- Decision supplied in response to a tool-approval interrupt: the Python
dict read with `approval.get("approved", False)` and
`approval.get("reason", "declined by user")`. -/
structure ApprovalDecision where
  approved : Bool
  reason : Option Str
deriving DecidableEq

/-- Payload surfaced by the `interrupt` call in `check_tool_approval`
(sans the constant `"type": "tool_approval"` discriminator). -/
structure InterruptPayload where
  tool_name : Str
  tool_args : ToolArgs
  tool_call_id : Str
deriving DecidableEq

/-- Reason string effectively used for a declined call:
`approval.get("reason", "declined by user")`. -/
def declined_reason (d : ApprovalDecision) : Str :=
  d.reason.getD "declined by user".toList

/-- Synthetic decline message
`ToolMessage(content=f"Tool '{tool_name}' {reason}.", tool_call_id=..., name=...)`. -/
def decline_message (tc : ToolCall) (reason : Str) : Msg :=
  .tool ("Tool '".toList ++ tc.name ++ "' ".toList ++ reason ++ ['.'])
    tc.id tc.name

/-- Embedding of `graph.check_tool_approval`.  The langgraph `interrupt`
suspends the node once per tool call of the most recent assistant message
and resumes with a decision from the external responder; the responder is
modelled as a function from tool call to decision.  The first component is
the list of interrupt payloads the node surfaces, one per tool call in
order; the second is the state update: the synthetic decline messages for
the calls whose decision is not approved (empty when the last message is
not an assistant message with tool calls, or when every call is
approved). -/
def check_tool_approval (messages : List Msg)
    (responder : ToolCall → ApprovalDecision) :
    List InterruptPayload × List Msg :=
  match messages.getLast? with
  | some (.ai _ tool_calls) =>
    (tool_calls.map (fun tc => ⟨tc.name, tc.args, tc.id⟩),
      (tool_calls.filter (fun tc => !(responder tc).approved)).map
        (fun tc => decline_message tc (declined_reason (responder tc))))
  | _ => ([], [])

/-- Successor node chosen after the approval check. -/
inductive Route
  | call_tool
  | call_llm
deriving DecidableEq

/-- Python `sub in s`: contiguous substring test. -/
def str_contains (s sub : Str) : Bool := decide (List.IsInfix sub s)

/-- Embedding of `graph.should_execute_tools`: when the last message is a
tool message whose content contains "declined by user" or
"denied by settings", route back to the model; otherwise execute tools. -/
def should_execute_tools (messages : List Msg) : Route :=
  match messages.getLast? with
  | some (.tool content _ _) =>
    if str_contains content "declined by user".toList ||
        str_contains content "denied by settings".toList
    then .call_llm else .call_tool
  | _ => .call_tool

theorem mem_of_getLast?_some {α : Type} {l : List α} {a : α}
    (h : l.getLast? = some a) : a ∈ l := by
  induction l with
  | nil => simp at h
  | cons x xs ih =>
    cases xs with
    | nil => simp_all
    | cons y ys =>
      rw [List.getLast?_cons_cons] at h
      exact List.mem_cons_of_mem x (ih h)

theorem should_execute_tools_getLast_tool (msgs : List Msg)
    (c i n : Str) (h : msgs.getLast? = some (.tool c i n)) :
    should_execute_tools msgs =
      if str_contains c "declined by user".toList ||
          str_contains c "denied by settings".toList
      then Route.call_llm else Route.call_tool := by
  unfold should_execute_tools
  rw [h]

/-- C3: when the most recent assistant message carries tool calls and at
least one of them is declined (the system's decline reasons being
"declined by user" or "denied by settings"), the approval check appends a
synthetic decline tool message keyed to each declined call's id, the
update is nonempty, and the router sends control back to the model node,
so no call of the batch reaches tool execution — including the calls that
were individually approved. -/
theorem decline_skips_batch
    (messages : List Msg) (content : Str) (tool_calls : List ToolCall)
    (responder : ToolCall → ApprovalDecision)
    (hlast : messages.getLast? = some (.ai content tool_calls))
    (hreason : ∀ tc ∈ tool_calls, (responder tc).approved = false →
      declined_reason (responder tc) = "declined by user".toList ∨
      declined_reason (responder tc) = "denied by settings".toList)
    (hdecl : ∃ tc ∈ tool_calls, (responder tc).approved = false) :
    (check_tool_approval messages responder).2 ≠ [] ∧
    (∀ tc ∈ tool_calls, (responder tc).approved = false →
      decline_message tc (declined_reason (responder tc)) ∈
        (check_tool_approval messages responder).2) ∧
    should_execute_tools
      (messages ++ (check_tool_approval messages responder).2) =
      Route.call_llm := by
  have hupd : (check_tool_approval messages responder).2 =
      (tool_calls.filter (fun tc => !(responder tc).approved)).map
        (fun tc => decline_message tc (declined_reason (responder tc))) := by
    unfold check_tool_approval
    rw [hlast]
  obtain ⟨tc0, htc0, hap0⟩ := hdecl
  have hmem : ∀ tc ∈ tool_calls, (responder tc).approved = false →
      decline_message tc (declined_reason (responder tc)) ∈
        (check_tool_approval messages responder).2 := by
    intro tc htc hap
    rw [hupd]
    exact List.mem_map_of_mem _ (List.mem_filter.mpr ⟨htc, by simp [hap]⟩)
  have hne : (check_tool_approval messages responder).2 ≠ [] :=
    List.ne_nil_of_mem (hmem tc0 htc0 hap0)
  refine ⟨hne, hmem, ?_⟩
  have hs : ((check_tool_approval messages responder).2.getLast?).isSome := by
    rw [List.getLast?_isSome]
    exact hne
  obtain ⟨m, hm⟩ := Option.isSome_iff_exists.mp hs
  have hmmem := mem_of_getLast?_some hm
  rw [hupd] at hmmem
  obtain ⟨tc, htcf, rfl⟩ := List.mem_map.mp hmmem
  obtain ⟨htc, hapb⟩ := List.mem_filter.mp htcf
  have hap : (responder tc).approved = false := by
    cases h : (responder tc).approved
    · rfl
    · rw [h] at hapb
      simp at hapb
  have hlast2 : (messages ++ (check_tool_approval messages responder).2).getLast?
      = some (decline_message tc (declined_reason (responder tc))) := by
    rw [List.getLast?_append_of_ne_nil _ hne, hm]
  simp only [decline_message] at hlast2
  rw [should_execute_tools_getLast_tool _ _ _ _ hlast2]
  cases hreason tc htc hap with
  | inl h1 =>
    have hc : str_contains
        ("Tool '".toList ++ tc.name ++ "' ".toList ++
          declined_reason (responder tc) ++ ['.'])
        "declined by user".toList = true := by
      simp only [str_contains, decide_eq_true_eq]
      exact ⟨"Tool '".toList ++ tc.name ++ "' ".toList, ['.'],
        by rw [h1]⟩
    rw [hc, Bool.true_or]
    rfl
  | inr h2 =>
    have hc : str_contains
        ("Tool '".toList ++ tc.name ++ "' ".toList ++
          declined_reason (responder tc) ++ ['.'])
        "denied by settings".toList = true := by
      simp only [str_contains, decide_eq_true_eq]
      exact ⟨"Tool '".toList ++ tc.name ++ "' ".toList, ['.'],
        by rw [h2]⟩
    rw [hc, Bool.or_true]
    rfl

/-- Two-call batch used to exercise the approval step: one benign call and
one shell call. -/
def demo_call_a : ToolCall :=
  ⟨"a".toList, "read_file".toList, [("path".toList, "/x".toList)]⟩

def demo_call_b : ToolCall :=
  ⟨"b".toList, "run_shell_command".toList,
    [("command".toList, "rm -rf /tmp/x".toList)]⟩

def demo_messages : List Msg :=
  [.human "hi".toList, .ai [] [demo_call_a, demo_call_b]]

/-- Responder approving call `a` and declining call `b`. -/
def demo_responder : ToolCall → ApprovalDecision :=
  fun tc =>
    if tc.id = "a".toList then ⟨true, none⟩
    else ⟨false, some "declined by user".toList⟩

/-- C3 witness: declining one call of a two-call batch yields a nonempty
decline update and routes back to the model. -/
theorem decline_skips_batch_witness :
    (check_tool_approval demo_messages demo_responder).2 ≠ [] ∧
    (∀ tc ∈ [demo_call_a, demo_call_b], (demo_responder tc).approved = false →
      decline_message tc (declined_reason (demo_responder tc)) ∈
        (check_tool_approval demo_messages demo_responder).2) ∧
    should_execute_tools
      (demo_messages ++ (check_tool_approval demo_messages demo_responder).2) =
      Route.call_llm :=
  decline_skips_batch demo_messages [] [demo_call_a, demo_call_b]
    demo_responder (by decide) (by decide) (by decide)

/-- C4 counterexample: with an allow rule for `read_file`, the Policy
Engine decides Allow for the call, yet `check_tool_approval` still
surfaces an interrupt payload for that call and suspends awaiting the
external responder — the node interrupts unconditionally for every tool
call and never consults the Policy Engine itself. -/
theorem interrupt_despite_allow_cex :
    check_permission ⟨⟨["read_file".toList], []⟩, [], 0⟩ "read_file".toList
        [("path".toList, "/x".toList)] = some true ∧
    (check_tool_approval
        [.ai []
          [⟨"1".toList, "read_file".toList, [("path".toList, "/x".toList)]⟩]]
        (fun _ => ⟨true, none⟩)).1 =
      [⟨"read_file".toList, [("path".toList, "/x".toList)], "1".toList⟩] := by
  decide

/-- Embedding of `gui.check_tool_permission`, the responder that answers
the interrupt: it consults the Policy Engine first; `some true` is
auto-approved and `some false` auto-declined with reason
"denied by settings", without reaching the human; only `none` (Undecided)
falls through to `prompt_tool_approval`, whose outcome is modelled as
`prompt_result`.  The boolean records whether the human prompt was
reached. -/
def check_tool_permission (s : Settings) (tool_name : Str)
    (tool_args : ToolArgs) (prompt_result : ApprovalDecision) :
    ApprovalDecision × Bool :=
  match check_permission s tool_name tool_args with
  | some true => (⟨true, none⟩, false)
  | some false => (⟨false, some "denied by settings".toList⟩, false)
  | none => (prompt_result, true)

/-- C4 (amended): the approval node surfaces an interrupt for every tool
call of the batch, unconditionally; the policy-first behaviour lives in
the responder: `check_tool_permission` reaches the human prompt exactly
when the Policy Engine returns Undecided, so a call decided Allow or Deny
is answered by settings alone and never waits on a human. -/
theorem approval_policy_in_responder
    (s : Settings) (tool_name : Str) (tool_args : ToolArgs)
    (prompt_result : ApprovalDecision)
    (messages : List Msg) (content : Str) (tool_calls : List ToolCall)
    (responder : ToolCall → ApprovalDecision)
    (hlast : messages.getLast? = some (.ai content tool_calls)) :
    ((check_tool_permission s tool_name tool_args prompt_result).2 = true ↔
      check_permission s tool_name tool_args = none) ∧
    (check_tool_approval messages responder).1 =
      tool_calls.map (fun tc => ⟨tc.name, tc.args, tc.id⟩) := by
  constructor
  · unfold check_tool_permission
    cases h : check_permission s tool_name tool_args with
    | none => simp
    | some b => cases b <;> simp
  · unfold check_tool_approval
    rw [hlast]

/-- C4 witness: with an empty rule set the responder prompts the human for
a `read_file` call (policy Undecided), and the interrupt payloads of the
demo batch are one per tool call, in order. -/
theorem approval_policy_in_responder_witness :
    ((check_tool_permission default_settings "read_file".toList
        [("path".toList, "/x".toList)] ⟨true, none⟩).2 = true ↔
      check_permission default_settings "read_file".toList
        [("path".toList, "/x".toList)] = none) ∧
    (check_tool_approval demo_messages demo_responder).1 =
      [demo_call_a, demo_call_b].map (fun tc => ⟨tc.name, tc.args, tc.id⟩) :=
  approval_policy_in_responder default_settings "read_file".toList
    [("path".toList, "/x".toList)] ⟨true, none⟩ demo_messages []
    [demo_call_a, demo_call_b] demo_responder (by decide)

/-- Maximum context window size in tokens (`graph.MAX_CONTEXT_TOKENS`). -/
def MAX_CONTEXT_TOKENS : Nat := 128000

/-- Message classifier used by the trimming contract. -/
def Msg.isHuman : Msg → Bool
  | .human _ => true
  | _ => false

/-- Total counted tokens of a message list under a pluggable counting
strategy (the spec treats `_count_tokens` as a strategy summed across
messages). -/
def count_tokens (counter : Msg → Nat) (messages : List Msg) : Nat :=
  (messages.map counter).sum

/-- Modelled from the spec: the Context Window Trimmer of §4.2.  The
function actually called by `graph.call_llm` is langchain's
`trim_messages(..., strategy="last", start_on="human",
include_system=True, allow_partial=False)`, library code that is not part
of this repository.  Following the spec's words: the system prefix `sys`
is retained unconditionally, messages are dropped from the front of the
remaining history until the oldest retained message is a Human message
and the counted total fits the budget (or the remainder is empty), and
when even maximal dropping leaves the retained set over budget the
operation fails with `none` instead of returning a partial result. -/
def trim_messages (counter : Msg → Nat) (budget : Nat) (sys : List Msg) :
    List Msg → Option (List Msg)
  | [] => if count_tokens counter sys ≤ budget then some sys else none
  | m :: rest =>
    if m.isHuman = true ∧ count_tokens counter (sys ++ m :: rest) ≤ budget then
      some (sys ++ m :: rest)
    else trim_messages counter budget sys rest

theorem count_tokens_append (counter : Msg → Nat) (a b : List Msg) :
    count_tokens counter (a ++ b) =
      count_tokens counter a + count_tokens counter b := by
  simp [count_tokens]

/-- C5: whenever trimming succeeds, the result is the whole system prefix
followed by a suffix of the non-system history whose first message — if
any — is a Human message, and the counted total does not exceed the
budget.  No system message is ever dropped. -/
theorem trim_messages_spec (counter : Msg → Nat) (budget : Nat)
    (sys rest out : List Msg)
    (h : trim_messages counter budget sys rest = some out) :
    ∃ kept, out = sys ++ kept ∧
      List.IsSuffix kept rest ∧
      (kept = [] ∨ ∃ c kept2, kept = Msg.human c :: kept2) ∧
      count_tokens counter out ≤ budget := by
  induction rest with
  | nil =>
    rw [trim_messages] at h
    split at h
    · rename_i hb
      injection h with h
      subst h
      exact ⟨[], by simp, List.nil_suffix, Or.inl rfl, by simpa using hb⟩
    · exact absurd h (by simp)
  | cons m rest ih =>
    rw [trim_messages] at h
    split at h
    · rename_i hcond
      injection h with h
      subst h
      have hm : ∃ c, m = Msg.human c := by
        cases m with
        | human c => exact ⟨c, rfl⟩
        | system c => simp [Msg.isHuman] at hcond
        | ai c t => simp [Msg.isHuman] at hcond
        | tool c i n => simp [Msg.isHuman] at hcond
      obtain ⟨c, rfl⟩ := hm
      exact ⟨Msg.human c :: rest, rfl, List.suffix_refl _,
        Or.inr ⟨c, rest, rfl⟩, hcond.2⟩
    · obtain ⟨kept, h1, h2, h3, h4⟩ := ih h
      exact ⟨kept, h1, h2.trans (List.suffix_cons m rest), h3, h4⟩

/-- C5 witness: with a unit counter and budget 3, trimming drops the
leading assistant message and retains the system prefix plus the
Human-led tail. -/
theorem trim_messages_spec_witness :
    trim_messages (fun _ => 1) 3 [Msg.system []]
        [Msg.ai [] [], Msg.human [], Msg.tool [] [] []] =
      some [Msg.system [], Msg.human [], Msg.tool [] [] []] ∧
    ∃ kept, [Msg.system [], Msg.human [], Msg.tool [] [] []] =
        [Msg.system []] ++ kept ∧
      List.IsSuffix kept [Msg.ai [] [], Msg.human [], Msg.tool [] [] []] ∧
      (kept = [] ∨ ∃ c kept2, kept = Msg.human c :: kept2) ∧
      count_tokens (fun _ => 1)
        [Msg.system [], Msg.human [], Msg.tool [] [] []] ≤ 3 :=
  ⟨by decide, trim_messages_spec (fun _ => 1) 3 [Msg.system []]
    [Msg.ai [] [], Msg.human [], Msg.tool [] [] []]
    [Msg.system [], Msg.human [], Msg.tool [] [] []] (by decide)⟩

theorem trim_messages_none (counter : Msg → Nat) (budget : Nat)
    (sys rest : List Msg) (h : budget < count_tokens counter sys) :
    trim_messages counter budget sys rest = none := by
  induction rest with
  | nil =>
    rw [trim_messages]
    rw [if_neg (by omega)]
  | cons m rest ih =>
    rw [trim_messages]
    rw [if_neg, ih]
    rintro ⟨-, hb⟩
    rw [count_tokens_append] at hb
    omega

/-- Outcome of the request-building part of a model turn. -/
structure Request where
  model : Str
  messages : List Msg
deriving DecidableEq

/-- Turn-level failures surfaced to the caller. -/
inductive TurnError
  | budget_exhausted
deriving DecidableEq

/-- Embedding of the request-building part of `graph.call_llm` (model
invocation itself is an external collaborator): it binds
`ChatOllama(model="qwen3-coder")` and trims the system prefix plus
conversation to `MAX_CONTEXT_TOKENS`.  The loaded `Settings` value is
passed in to make explicit that `call_llm` never reads it; a trimming
failure is not caught inside `call_llm` and propagates to the caller. -/
def call_llm_request (loaded : Settings) (counter : Msg → Nat)
    (sys rest : List Msg) : Except TurnError Request :=
  match trim_messages counter MAX_CONTEXT_TOKENS sys rest with
  | none => .error .budget_exhausted
  | some msgs => .ok ⟨"qwen3-coder".toList, msgs⟩

/-- C6: when even maximal front-dropping cannot fit the budget (the
retained system prefix alone exceeds it), trimming returns no message
list at all and the model-turn step propagates the failure as an error to
the caller instead of producing a request. -/
theorem trim_failure_fatal (loaded : Settings) (counter : Msg → Nat)
    (sys rest : List Msg)
    (h : MAX_CONTEXT_TOKENS < count_tokens counter sys) :
    trim_messages counter MAX_CONTEXT_TOKENS sys rest = none ∧
    call_llm_request loaded counter sys rest =
      Except.error TurnError.budget_exhausted := by
  have ht := trim_messages_none counter MAX_CONTEXT_TOKENS sys rest h
  refine ⟨ht, ?_⟩
  unfold call_llm_request
  rw [ht]

/-- C6 witness: a counter assigning 200000 tokens to the system message
exceeds the 128000 budget, and the turn fails. -/
theorem trim_failure_fatal_witness :
    MAX_CONTEXT_TOKENS < count_tokens (fun _ => 200000) [Msg.system []] ∧
    (trim_messages (fun _ => 200000) MAX_CONTEXT_TOKENS [Msg.system []] [] =
        none ∧
      call_llm_request default_settings (fun _ => 200000) [Msg.system []] [] =
        Except.error TurnError.budget_exhausted) :=
  ⟨by decide, trim_failure_fatal default_settings (fun _ => 200000)
    [Msg.system []] [] (by decide)⟩

/-- C10: the request built by the model-invocation step is independent of
the loaded `Settings` — its `model` and `context_window_size` fields are
never consulted: the bound model name is always "qwen3-coder" and the
trimming budget is always `MAX_CONTEXT_TOKENS = 128000`. -/
theorem call_llm_ignores_settings (s₁ s₂ : Settings) (counter : Msg → Nat)
    (sys rest : List Msg) :
    call_llm_request s₁ counter sys rest =
      call_llm_request s₂ counter sys rest ∧
    (∀ req, call_llm_request s₁ counter sys rest = Except.ok req →
      req.model = "qwen3-coder".toList) ∧
    MAX_CONTEXT_TOKENS = 128000 := by
  refine ⟨rfl, ?_, rfl⟩
  intro req h
  unfold call_llm_request at h
  cases htrim : trim_messages counter MAX_CONTEXT_TOKENS sys rest with
  | none =>
    rw [htrim] at h
    cases h
  | some msgs =>
    rw [htrim] at h
    cases h
    rfl

/-- C10 witness: settings carrying a different model name and a tiny
context window produce the same request as the defaults, and the request
binds "qwen3-coder". -/
theorem call_llm_ignores_settings_witness :
    call_llm_request ⟨⟨[], []⟩, "llama".toList, 4⟩ (fun _ => 1)
        [Msg.system []] [] =
      call_llm_request default_settings (fun _ => 1) [Msg.system []] [] ∧
    Request.model ⟨"qwen3-coder".toList, [Msg.system []]⟩ =
      "qwen3-coder".toList :=
  ⟨(call_llm_ignores_settings ⟨⟨[], []⟩, "llama".toList, 4⟩ default_settings
      (fun _ => 1) [Msg.system []] []).1,
    (call_llm_ignores_settings ⟨⟨[], []⟩, "llama".toList, 4⟩ default_settings
      (fun _ => 1) [Msg.system []] []).2.1
      ⟨"qwen3-coder".toList, [Msg.system []]⟩ (by rfl)⟩

/-- Messages as stored in the checkpointed graph channel carry an identity
used for merge semantics. -/
structure IdMsg where
  id : Str
  msg : Msg
deriving DecidableEq

/-- Modelled from the spec (§3, ConversationState: "addressable by message
identity for merge/replace semantics") and from the documented behaviour
of the `add_messages` reducer annotated on `InputState.messages` in
`state.py` (the reducer itself is langgraph library code): new messages
are merged into the existing sequence, replacing an existing message when
its id matches and appending otherwise, keeping the state append-only
apart from id collisions. -/
def add_messages (existing new : List IdMsg) : List IdMsg :=
  new.foldl
    (fun acc m =>
      if acc.any (fun e => e.id == m.id) then
        acc.map (fun e => if e.id == m.id then m else e)
      else acc ++ [m])
    existing

/-- In-memory agent side state: the checkpointed message channel plus the
volatile todo list (`tools._todos`, items abstracted to strings). -/
structure AgentState where
  messages : List IdMsg
  todos : List Str
deriving DecidableEq

/-- Embedding of `graph.clear_conversation`:
`graph.update_state(config, {"messages": []})` routes the update through
the channel's `add_messages` reducer, and `clear_todos()` empties the todo
list. -/
def clear_conversation (st : AgentState) : AgentState :=
  { messages := add_messages st.messages [], todos := [] }

/-- C7: evaluation at a one-message history with one open todo.  Merging
an empty update through the append-only `add_messages` reducer is a
no-op, so `clear_conversation` leaves the message sequence untouched —
contradicting both the spec's reset contract and the function's own
docstring ("Resets the messages in the graph state to an empty list") —
while the todo list is cleared. -/
theorem clear_conversation_keeps_messages :
    (clear_conversation
        ⟨[⟨"1".toList, .human "hi".toList⟩], ["todo".toList]⟩).messages =
      [⟨"1".toList, .human "hi".toList⟩] ∧
    (clear_conversation
        ⟨[⟨"1".toList, .human "hi".toList⟩], ["todo".toList]⟩).messages ≠ [] ∧
    (clear_conversation
        ⟨[⟨"1".toList, .human "hi".toList⟩], ["todo".toList]⟩).todos = [] := by
  decide

/-- Python `command.split()[0] if command.split() else command`: the first
whitespace-delimited word, or the command itself when it has no
non-whitespace character (so that `split()` is empty). -/
def first_word (command : Str) : Str :=
  match command.dropWhile isWS with
  | [] => command
  | c :: rest => (c :: rest).takeWhile (fun x => !isWS x)

/-- Rule string synthesized by `settings.add_allow_rule`: for the shell
tool, the first word of the command with a `:*` wildcard; otherwise the
bare tool name. -/
def synthesized_rule (tool_name : Str) (tool_args : ToolArgs) : Str :=
  if tool_name = "run_shell_command".toList then
    "run_shell_command(".toList ++
      first_word (getArg tool_args "command".toList) ++ ":*)".toList
  else tool_name

/-- Embedding of `settings.add_allow_rule` acting on the allow list: the
synthesized rule is appended only when not already present (persistence is
the external settings collaborator). -/
def add_allow_rule (allow : List Str) (tool_name : Str)
    (tool_args : ToolArgs) : List Str :=
  let rule := synthesized_rule tool_name tool_args
  if rule ∈ allow then allow else allow ++ [rule]

/-- C8: `add_allow_rule` is idempotent — applying it twice with the same
tool and arguments yields a list of the same size as applying it once —
and the synthesized rule is appended exactly when not already present. -/
theorem add_allow_rule_idempotent (allow : List Str) (tool_name : Str)
    (tool_args : ToolArgs) :
    (add_allow_rule (add_allow_rule allow tool_name tool_args)
        tool_name tool_args).length =
      (add_allow_rule allow tool_name tool_args).length ∧
    (synthesized_rule tool_name tool_args ∈ allow →
      add_allow_rule allow tool_name tool_args = allow) ∧
    (synthesized_rule tool_name tool_args ∉ allow →
      add_allow_rule allow tool_name tool_args =
        allow ++ [synthesized_rule tool_name tool_args]) := by
  refine ⟨?_, ?_, ?_⟩
  · by_cases h : synthesized_rule tool_name tool_args ∈ allow
    · simp [add_allow_rule, h]
    · have h2 : synthesized_rule tool_name tool_args ∈
          allow ++ [synthesized_rule tool_name tool_args] := by simp
      simp [add_allow_rule, h, h2]
  · intro h
    simp [add_allow_rule, h]
  · intro h
    simp [add_allow_rule, h]

/-- C8 witness: recording approval for `git status` twice yields the same
rule-list length as recording it once, and the synthesized wildcard rule
`run_shell_command(git:*)` is appended to the empty list. -/
theorem add_allow_rule_idempotent_witness :
    (add_allow_rule
        (add_allow_rule [] "run_shell_command".toList
          [("command".toList, "git status".toList)])
        "run_shell_command".toList
        [("command".toList, "git status".toList)]).length =
      (add_allow_rule [] "run_shell_command".toList
        [("command".toList, "git status".toList)]).length ∧
    add_allow_rule [] "run_shell_command".toList
        [("command".toList, "git status".toList)] =
      [] ++ [synthesized_rule "run_shell_command".toList
        [("command".toList, "git status".toList)]] :=
  ⟨(add_allow_rule_idempotent [] "run_shell_command".toList
      [("command".toList, "git status".toList)]).1,
    (add_allow_rule_idempotent [] "run_shell_command".toList
      [("command".toList, "git status".toList)]).2.2 (by decide)⟩

/-- JSON values, the interchange form written by `json.dump` and read
back by `json.load`; the file transport itself (`.helix/settings.json`
under the base path) is modelled as carrying the value unchanged. -/
inductive JValue
  | str (s : Str)
  | num (n : Int)
  | arr (xs : List JValue)
  | obj (fields : List (Str × JValue))

/-- Fields of a JSON object (a non-object has none). -/
def JValue.fields : JValue → List (Str × JValue)
  | .obj fs => fs
  | _ => []

/-- Strings of a JSON array, as consumed into `Permissions.allow`/`deny`;
non-string entries cannot arise from `save_settings` output. -/
def JValue.strings : JValue → List Str
  | .arr xs =>
    xs.filterMap (fun v => match v with | .str s => some s | _ => none)
  | _ => []

/-- String content of a JSON value, with a default used only for shapes
`save_settings` never writes. -/
def JValue.stringOr (d : Str) : JValue → Str
  | .str s => s
  | _ => d

/-- Integer content of a JSON value, with a default used only for shapes
`save_settings` never writes. -/
def JValue.intOr (d : Int) : JValue → Int
  | .num n => n
  | _ => d

/-- Embedding of the `data` dictionary built by `settings.save_settings`:
`{"permissions": {"allow": [...], "deny": [...]}, "model": ...,
"context_window_size": ...}`. -/
def settings_to_json (s : Settings) : JValue :=
  .obj
    [("permissions".toList,
       .obj [("allow".toList, .arr (s.permissions.allow.map .str)),
             ("deny".toList, .arr (s.permissions.deny.map .str))]),
     ("model".toList, .str s.model),
     ("context_window_size".toList, .num s.context_window_size)]

/-- Embedding of `settings._parse_settings` applied by `load_settings` to
the decoded JSON: each key is read with the documented default
(`data.get("permissions", {})`, `.get("allow", [])`, `.get("deny", [])`,
`.get("model", "qwen3-coder")`, `.get("context_window_size",
128000)`). -/
def parse_settings (j : JValue) : Settings :=
  let data := j.fields
  let permissions_data :=
    ((data.lookup "permissions".toList).getD (.obj [])).fields
  let allow :=
    ((permissions_data.lookup "allow".toList).getD (.arr [])).strings
  let deny :=
    ((permissions_data.lookup "deny".toList).getD (.arr [])).strings
  let model :=
    ((data.lookup "model".toList).getD
      (.str "qwen3-coder".toList)).stringOr "qwen3-coder".toList
  let cws :=
    ((data.lookup "context_window_size".toList).getD (.num 128000)).intOr
      128000
  ⟨⟨allow, deny⟩, model, cws⟩

theorem strings_map_str (l : List Str) :
    (JValue.arr (l.map .str)).strings = l := by
  induction l with
  | nil => rfl
  | cons a t ih =>
    simp only [JValue.strings, List.map_cons, List.filterMap_cons] at ih ⊢
    rw [ih]

/-- C9: saving a `Settings` value and loading it back from the same base
path reproduces the permission lists, the model name and the context
window size: parsing the saved JSON object is the identity on
`Settings`. -/
theorem save_load_roundtrip (s : Settings) :
    parse_settings (settings_to_json s) = s := by
  cases s with
  | mk perms model cws =>
    cases perms with
    | mk allow deny =>
      simp only [parse_settings, settings_to_json, JValue.fields,
        List.lookup, JValue.stringOr, JValue.intOr]
      norm_num [strings_map_str]

end Helix
